import Mathlib

/-!
Verification of the rate/saturation limiting primitives of the sweetiebot
repository (`SaturationLimit`, `RateLimit`, `CheckRateLimit` in main.go).

Modelling conventions:
* Go `int` / `int64` values are modelled as unbounded integers (`Int`);
  none of the verified arithmetic relies on two's-complement wraparound,
  and timestamps are wall-clock Unix seconds.
* A Go runtime panic (slice index out of range, integer division by zero,
  `make` with negative length) is modelled as `Option.none`.
* The mutex in `SaturationLimit` serialises all operations, so each
  operation is modelled as a sequential state transformer.  The CAS retry
  loop of `RateLimit` additionally gets an interleaved small-step model
  (`RLStep`) for the concurrency claim.
-/

namespace Sweetiebot

/-- The `SaturationLimit` struct from main.go: a fixed-capacity circular
buffer of int64 timestamps (`times`) and a write cursor (`index`).
The mutex field has no mathematical content. -/
structure SaturationLimit where
  times : List Int
  index : Int
deriving DecidableEq

/-- Go slice read `l[i]`: panics (`none`) when `i` is out of range. -/
def goIndex (l : List Int) (i : Int) : Option Int :=
  if 0 ≤ i ∧ i < (l.length : Int) then some (l.getD i.toNat 0) else none

/-- Go slice write `l[i] = v`: panics (`none`) when `i` is out of range. -/
def goSet (l : List Int) (i : Int) (v : Int) : Option (List Int) :=
  if 0 ≤ i ∧ i < (l.length : Int) then some (l.set i.toNat v) else none

/-- `realmod` from main.go: `x %= m` (Go's truncated remainder, which is
`Int.tmod`), then `if x < 0 { x += m }`.  Go's `%` panics when `m = 0`,
modelled as `none`. -/
def realmod (x m : Int) : Option Int :=
  if m = 0 then none
  else
    let r := Int.tmod x m
    some (if r < 0 then r + m else r)

/-- `SaturationLimit.append` from main.go:
`s.index = realmod(s.index+1, len(s.times)); s.times[s.index] = t`. -/
def SaturationLimit.append (s : SaturationLimit) (t : Int) : Option SaturationLimit := do
  let i ← realmod (s.index + 1) s.times.length
  let ts ← goSet s.times i t
  pure { times := ts, index := i }

/-- `SaturationLimit.check` from main.go:
`i := realmod(s.index-(num-1), len(s.times)); return (curtime - s.times[i]) <= period`. -/
def SaturationLimit.check (s : SaturationLimit) (num : Int) (period curtime : Int) :
    Option Bool := do
  let i ← realmod (s.index - (num - 1)) s.times.length
  let v ← goIndex s.times i
  pure (decide (curtime - v ≤ period))

/-- `SaturationLimit.checkafter` from main.go:
`i := realmod(s.index-num, len(s.times)); return (s.times[s.index] - s.times[i]) <= period`. -/
def SaturationLimit.checkafter (s : SaturationLimit) (num : Int) (period : Int) :
    Option Bool := do
  let i ← realmod (s.index - num) s.times.length
  let cur ← goIndex s.times s.index
  let v ← goIndex s.times i
  pure (decide (cur - v ≤ period))

/-- `SaturationLimit.resize` from main.go:
`n := make([]int64, size, size); copy(n, s.times); s.times = n`.
`make` zero-initialises and panics on a negative length; `copy` copies
positionally from offset zero; the cursor `s.index` is not touched. -/
def SaturationLimit.resize (s : SaturationLimit) (size : Int) : Option SaturationLimit :=
  if size < 0 then none
  else some { times := (List.range size.toNat).map (fun i => s.times.getD i 0),
              index := s.index }

/-- Modelled from the spec: construction of a `SaturationLimit` with an
initial capacity (the constructor lives outside src/).  A zero-valued Go
struct with a freshly made slice: zeroed buffer of length `c`, cursor 0. -/
def mkLimit (c : Nat) : SaturationLimit :=
  { times := List.replicate c 0, index := 0 }

/-- Fold a list of timestamps through `append`. -/
def appendList (s : Option SaturationLimit) (ts : List Int) : Option SaturationLimit :=
  ts.foldl (fun acc t => acc.bind (fun x => x.append t)) s

/-- The representation invariant of `SaturationLimit`: the cursor is a
valid position of the backing buffer. -/
def SaturationLimit.inv (s : SaturationLimit) : Prop :=
  0 ≤ s.index ∧ s.index < (s.times.length : Int)

instance (s : SaturationLimit) : Decidable s.inv := by
  unfold SaturationLimit.inv; infer_instance

/-- The timestamp stored `k` slots behind the cursor, wrapping around the
buffer boundary (the spec's notion of slot positions). -/
def SaturationLimit.slotBehind (s : SaturationLimit) (k : Int) : Int :=
  s.times.getD ((s.index - k) % (s.times.length : Int)).toNat 0

/-- The reading part of `check`: the timestamp `check num _ _` loads
before comparing (the slot `num - 1` positions behind the cursor). -/
def SaturationLimit.checkReadVal (s : SaturationLimit) (num : Int) : Option Int := do
  let i ← realmod (s.index - (num - 1)) s.times.length
  goIndex s.times i

/-- Sequential denotational model of `RateLimit` from main.go: with no
concurrent writer the CAS always succeeds, so a single loop iteration
decides.  Takes the cell value `prevtime` and the sampled current time
`t`; returns the boolean result and the cell value afterwards. -/
def RateLimit (prevtime interval t : Int) : Bool × Int :=
  if t - prevtime ≤ interval then (false, prevtime) else (true, t)

/-- `CheckRateLimit` from main.go: a pure read,
`time.Now().UTC().Unix() - atomic.LoadInt64(prevtime) > interval`. -/
def CheckRateLimit (prevtime interval t : Int) : Bool :=
  decide (interval < t - prevtime)

/-! ### Basic lemmas about `realmod` and the slice primitives -/

theorem tmod_lower_bound (x m : Int) (hm : 0 < m) : -m < Int.tmod x m := by
  rcases le_or_lt 0 x with hx | hx
  · have := Int.tmod_nonneg m hx
    omega
  · have h1 := Int.tdiv_add_tmod x m
    have h2 := Int.tdiv_add_tmod (-x) m
    rw [Int.neg_tdiv] at h2
    have hneg : Int.tmod (-x) m = -Int.tmod x m := by linarith
    have hup := Int.tmod_lt_of_pos (-x) hm
    omega

/-- For a positive modulus, `realmod` computes the mathematical (Euclidean)
remainder: this is the normalisation the spec calls load-bearing. -/
theorem realmod_eq_emod (x m : Int) (hm : 0 < m) : realmod x m = some (x % m) := by
  unfold realmod
  rw [if_neg (by omega)]
  show some (if Int.tmod x m < 0 then Int.tmod x m + m else Int.tmod x m) = some (x % m)
  congr 1
  have hsplit := Int.tdiv_add_tmod x m
  have hxm : x % m = Int.tmod x m % m := by
    conv_lhs => rw [← hsplit]
    rw [add_comm, Int.add_mul_emod_self_left]
  have hup := Int.tmod_lt_of_pos x hm
  have hlow := tmod_lower_bound x m hm
  by_cases hr : Int.tmod x m < 0
  · rw [if_pos hr, hxm]
    have e1 : (Int.tmod x m + m) % m = Int.tmod x m % m := by
      have : Int.tmod x m + m = Int.tmod x m + m * 1 := by ring
      rw [this, Int.add_mul_emod_self_left]
    have e2 : (Int.tmod x m + m) % m = Int.tmod x m + m :=
      Int.emod_eq_of_lt (by omega) (by omega)
    omega
  · rw [if_neg hr, hxm]
    exact (Int.emod_eq_of_lt (by omega) (by omega)).symm

theorem goIndex_eq (l : List Int) (i : Int) (h0 : 0 ≤ i) (h1 : i < (l.length : Int)) :
    goIndex l i = some (l.getD i.toNat 0) := by
  unfold goIndex
  rw [if_pos ⟨h0, h1⟩]

theorem goSet_eq (l : List Int) (i : Int) (v : Int) (h0 : 0 ≤ i) (h1 : i < (l.length : Int)) :
    goSet l i v = some (l.set i.toNat v) := by
  unfold goSet
  rw [if_pos ⟨h0, h1⟩]

theorem inv_pos_len (s : SaturationLimit) (h : s.inv) : 0 < (s.times.length : Int) := by
  obtain ⟨h0, h1⟩ := h
  omega

/-! ### Characterisation of the operations on states satisfying the invariant -/

theorem append_eq (s : SaturationLimit) (h : s.inv) (t : Int) :
    s.append t = some { times := s.times.set ((s.index + 1) % (s.times.length : Int)).toNat t,
                        index := (s.index + 1) % (s.times.length : Int) } := by
  have hm := inv_pos_len s h
  have h0 : 0 ≤ (s.index + 1) % (s.times.length : Int) := Int.emod_nonneg _ (by omega)
  have h1 : (s.index + 1) % (s.times.length : Int) < (s.times.length : Int) :=
    Int.emod_lt_of_pos _ hm
  unfold SaturationLimit.append
  rw [realmod_eq_emod _ _ hm]
  simp only [Option.bind_eq_bind, Option.some_bind]
  rw [goSet_eq _ _ _ h0 h1]
  rfl

theorem append_inv (s : SaturationLimit) (h : s.inv) (t : Int) (s1 : SaturationLimit)
    (heq : s.append t = some s1) : s1.inv := by
  rw [append_eq s h t] at heq
  have hm := inv_pos_len s h
  have h0 : 0 ≤ (s.index + 1) % (s.times.length : Int) := Int.emod_nonneg _ (by omega)
  have h1 : (s.index + 1) % (s.times.length : Int) < (s.times.length : Int) :=
    Int.emod_lt_of_pos _ hm
  cases heq
  constructor
  · exact h0
  · simpa [List.length_set] using h1

theorem check_eq (s : SaturationLimit) (h : s.inv) (num period curtime : Int) :
    s.check num period curtime =
      some (decide (curtime - s.slotBehind (num - 1) ≤ period)) := by
  have hm := inv_pos_len s h
  have h0 : 0 ≤ (s.index - (num - 1)) % (s.times.length : Int) := Int.emod_nonneg _ (by omega)
  have h1 : (s.index - (num - 1)) % (s.times.length : Int) < (s.times.length : Int) :=
    Int.emod_lt_of_pos _ hm
  unfold SaturationLimit.check
  rw [realmod_eq_emod _ _ hm]
  simp only [Option.bind_eq_bind, Option.some_bind]
  rw [goIndex_eq _ _ h0 h1]
  rfl

theorem checkReadVal_eq (s : SaturationLimit) (h : s.inv) (num : Int) :
    s.checkReadVal num = some (s.slotBehind (num - 1)) := by
  have hm := inv_pos_len s h
  have h0 : 0 ≤ (s.index - (num - 1)) % (s.times.length : Int) := Int.emod_nonneg _ (by omega)
  have h1 : (s.index - (num - 1)) % (s.times.length : Int) < (s.times.length : Int) :=
    Int.emod_lt_of_pos _ hm
  unfold SaturationLimit.checkReadVal
  rw [realmod_eq_emod _ _ hm]
  simp only [Option.bind_eq_bind, Option.some_bind]
  rw [goIndex_eq _ _ h0 h1]
  rfl

theorem checkafter_eq (s : SaturationLimit) (h : s.inv) (num period : Int) :
    s.checkafter num period =
      some (decide (s.slotBehind 0 - s.slotBehind num ≤ period)) := by
  have hm := inv_pos_len s h
  obtain ⟨hi0, hi1⟩ := h
  have h0 : 0 ≤ (s.index - num) % (s.times.length : Int) := Int.emod_nonneg _ (by omega)
  have h1 : (s.index - num) % (s.times.length : Int) < (s.times.length : Int) :=
    Int.emod_lt_of_pos _ hm
  unfold SaturationLimit.checkafter
  rw [realmod_eq_emod _ _ hm]
  simp only [Option.bind_eq_bind, Option.some_bind]
  rw [goIndex_eq _ _ hi0 hi1, goIndex_eq _ _ h0 h1]
  simp only [Option.some_bind]
  have hcur : s.slotBehind 0 = s.times.getD s.index.toNat 0 := by
    unfold SaturationLimit.slotBehind
    rw [sub_zero, Int.emod_eq_of_lt hi0 hi1]
  rw [hcur]
  rfl

theorem resize_eq (s : SaturationLimit) (size : Int) (hsz : 0 ≤ size) :
    s.resize size =
      some { times := (List.range size.toNat).map (fun i => s.times.getD i 0),
             index := s.index } := by
  unfold SaturationLimit.resize
  rw [if_neg (by omega)]

theorem getD_set_self (l : List Int) (n : Nat) (v : Int) (h : n < l.length) :
    (l.set n v).getD n 0 = v := by
  simp [List.getD_eq_getElem?_getD, List.getElem?_set_self, h]

theorem getD_set_other (l : List Int) (m n : Nat) (v : Int) (h : m ≠ n) :
    (l.set m v).getD n 0 = l.getD n 0 := by
  simp [List.getD_eq_getElem?_getD, List.getElem?_set_ne, h]

/-- After two consecutive `append`s on a buffer of capacity at least two,
the slot at the cursor holds the second value, the slot one behind holds
the first, and `checkafter 1` / `checkafter 0` compute accordingly. -/
theorem checkafter_after_two_appends (s : SaturationLimit) (h : s.inv)
    (hcap : 2 ≤ s.times.length) (a b period : Int) (s1 s2 : SaturationLimit)
    (h1 : s.append a = some s1) (h2 : s1.append b = some s2) :
    s2.checkafter 1 period = some (decide (b - a ≤ period)) ∧
    s2.checkafter 0 period = some (decide ((0 : Int) ≤ period)) := by
  have hm := inv_pos_len s h
  set L : Int := (s.times.length : Int) with hL
  set i1 : Int := (s.index + 1) % L with hi1
  have hinv1 : s1.inv := append_inv s h a s1 h1
  rw [append_eq s h a] at h1
  have hs1 : s1 = { times := s.times.set i1.toNat a, index := i1 } := by
    cases h1; rfl
  have hlen1 : (s1.times.length : Int) = L := by rw [hs1]; simp [List.length_set]
  have hi1b : 0 ≤ i1 ∧ i1 < L := ⟨Int.emod_nonneg _ (by omega), Int.emod_lt_of_pos _ hm⟩
  set i2 : Int := (i1 + 1) % L with hi2
  have hinv2 : s2.inv := append_inv s1 hinv1 b s2 h2
  rw [append_eq s1 hinv1 b] at h2
  have hs2 : s2 = { times := s1.times.set i2.toNat b, index := i2 } := by
    have : (s1.index + 1) % (s1.times.length : Int) = i2 := by
      rw [hlen1, hs1]
    rw [← this]
    cases h2; rfl
  have hi2b : 0 ≤ i2 ∧ i2 < L := ⟨Int.emod_nonneg _ (by omega), Int.emod_lt_of_pos _ hm⟩
  have hlen2 : (s2.times.length : Int) = L := by rw [hs2, hs1]; simp [List.length_set]
  have hne : i1 ≠ i2 := by
    by_cases hlt : i1 + 1 < L
    · have : i2 = i1 + 1 := by rw [hi2]; exact Int.emod_eq_of_lt (by omega) hlt
      omega
    · have he : i1 + 1 = L := by omega
      have : i2 = 0 := by rw [hi2, he]; exact Int.emod_self
      omega
  have hback : (i2 - 1) % L = i1 := by
    have e1 : (i1 + 1 - 1) % L = ((i1 + 1) % L - 1 % L) % L := Int.sub_emod _ _ _
    have e2 : (i2 - 1) % L = (i2 % L - 1 % L) % L := Int.sub_emod _ _ _
    have e3 : i2 % L = i2 := Int.emod_eq_of_lt hi2b.1 hi2b.2
    have e4 : (i1 + 1 - 1) % L = i1 := by
      have : i1 + 1 - 1 = i1 := by ring
      rw [this]; exact Int.emod_eq_of_lt hi1b.1 hi1b.2
    rw [e2, e3, ← e1, e4]
  have hslot0 : s2.slotBehind 0 = b := by
    unfold SaturationLimit.slotBehind
    rw [hlen2]
    have : (s2.index - 0) % L = i2 := by
      rw [hs2]; simpa using Int.emod_eq_of_lt hi2b.1 hi2b.2
    rw [this, hs2]
    exact getD_set_self _ _ _ (by rw [hs1]; simp [List.length_set]; omega)
  have hslot1 : s2.slotBehind 1 = a := by
    unfold SaturationLimit.slotBehind
    rw [hlen2]
    have : (s2.index - 1) % L = i1 := by rw [hs2]; exact hback
    rw [this, hs2, hs1]
    have hnetoNat : i2.toNat ≠ i1.toNat := by omega
    rw [getD_set_other _ _ _ _ hnetoNat]
    exact getD_set_self _ _ _ (by omega)
  constructor
  · rw [checkafter_eq s2 hinv2 1 period, hslot0, hslot1]
  · rw [checkafter_eq s2 hinv2 0 period, hslot0]
    simp

/-! ### Claim C1 -/

/-- C1 is false as stated: on a capacity-2 buffer with 0 then 100 appended,
`checkafter 0 50` returns true although the two most recently appended
timestamps differ by 100 > 50 (`checkafter 0` compares the newest slot
with itself). -/
theorem checkafter_zero_counterexample :
    appendList (some (mkLimit 2)) [0, 100] = some { times := [100, 0], index := 0 } ∧
    SaturationLimit.checkafter { times := [100, 0], index := 0 } 0 50 = some true ∧
    ¬ ((100 : Int) - 0 ≤ 50) := by decide

/-- C1 (amended): for capacity ≥ 2, after any valid state receives two
appended timestamps `a` then `b`, `checkafter 1 period` is true iff the
two most recently appended timestamps satisfy `b - a ≤ period`, while
`checkafter 0 period` compares the newest slot with itself and is true
iff `0 ≤ period`. -/
theorem checkafter_one_measures_two_most_recent (s : SaturationLimit) (h : s.inv)
    (hcap : 2 ≤ s.times.length) (a b period : Int) (s1 s2 : SaturationLimit)
    (h1 : s.append a = some s1) (h2 : s1.append b = some s2) :
    s2.checkafter 1 period = some (decide (b - a ≤ period)) ∧
    s2.checkafter 0 period = some (decide ((0 : Int) ≤ period)) :=
  checkafter_after_two_appends s h hcap a b period s1 s2 h1 h2

/-- Witness for C1's amended theorem at a concrete input: capacity 2,
appends 3 then 10, period 7. -/
theorem checkafter_one_measures_two_most_recent_witness :
    SaturationLimit.checkafter { times := [10, 3], index := 0 } 1 7 = some true ∧
    SaturationLimit.checkafter { times := [10, 3], index := 0 } 0 7 = some true := by
  have h := checkafter_one_measures_two_most_recent (mkLimit 2) (by decide) (by decide)
    3 10 7 { times := [0, 3], index := 1 } { times := [10, 3], index := 0 }
    (by decide) (by decide)
  exact ⟨h.1.trans (by decide), h.2.trans (by decide)⟩

/-! ### Claim C2 -/

/-- C2 is false as stated: from the valid state reached by appending 5 to a
fresh capacity-2 buffer (cursor at 1), `resize 1` succeeds but leaves the
cursor at 1, outside the new backing sequence of length 1; the next
`checkafter` then indexes out of range (a Go panic, modelled as `none`). -/
theorem resize_cursor_out_of_bounds :
    (mkLimit 2).append 5 = some { times := [0, 5], index := 1 } ∧
    ({ times := [0, 5], index := 1 } : SaturationLimit).inv ∧
    SaturationLimit.resize { times := [0, 5], index := 1 } 1 =
      some { times := [0], index := 1 } ∧
    ¬ ({ times := [0], index := 1 } : SaturationLimit).inv ∧
    SaturationLimit.checkafter { times := [0], index := 1 } 0 0 = none := by decide

/-- C2 (amended): `append` preserves the invariant `0 ≤ index < len(times)`
from every state satisfying it, and `resize size` keeps the cursor within
the new bounds exactly when `size` exceeds the current cursor: for every
`size ≥ 1` with `index < size` the resized state satisfies the invariant
(the code never adjusts the cursor, so `size ≤ index` breaks it). -/
theorem inv_preserved_append_and_guarded_resize (s : SaturationLimit) (h : s.inv) :
    (∀ t s1, s.append t = some s1 → s1.inv) ∧
    (∀ size : Int, 1 ≤ size → s.index < size →
      ∃ s1, s.resize size = some s1 ∧ s1.inv) := by
  constructor
  · exact fun t s1 h1 => append_inv s h t s1 h1
  · intro size h1 h2
    refine ⟨_, resize_eq s size (by omega), h.1, ?_⟩
    simp only [List.length_map, List.length_range]
    omega

/-- Witness for C2's amended theorem: appending 5 to a fresh capacity-1
buffer yields a state satisfying the invariant. -/
theorem inv_preserved_append_and_guarded_resize_witness :
    ({ times := [5], index := 0 } : SaturationLimit).inv :=
  (inv_preserved_append_and_guarded_resize (mkLimit 1) (by decide)).1 5
    { times := [5], index := 0 } (by decide)

/-! ### Claim C3 -/

/-- C3 names a requirement the code does not meet: `resize 0` is accepted
(no error, no panic) and leaves a zero-capacity state in which the next
`append` or `check` reaches `realmod`'s division by zero (a Go panic,
modelled as `none`); `resize (-1)` crashes in `make` rather than being
rejected as a configuration error. -/
theorem resize_zero_accepted_then_append_panics :
    SaturationLimit.resize (mkLimit 1) 0 = some { times := [], index := 0 } ∧
    SaturationLimit.append { times := [], index := 0 } 7 = none ∧
    SaturationLimit.check { times := [], index := 0 } 1 0 0 = none ∧
    SaturationLimit.checkafter { times := [], index := 0 } 1 0 = none ∧
    SaturationLimit.resize (mkLimit 1) (-1) = none := by decide

/-! ### Claim C4 -/

/-- C4: `RateLimit` on a cell holding `d` at time `t` returns false and
leaves the cell unchanged when `t - d ≤ interval`, and otherwise returns
true and sets the cell to `t`; consequently after a successful call at
`t0` every call at `t0 ≤ u < t0 + interval` is rejected and every call at
`t0 + interval + 1` or later succeeds again. -/
theorem rateLimit_spec (d interval t : Int) (hI : 0 ≤ interval) :
    (t - d ≤ interval → RateLimit d interval t = (false, d)) ∧
    (interval < t - d → RateLimit d interval t = (true, t)) ∧
    (∀ t0 seed : Int, interval < t0 - seed →
      RateLimit seed interval t0 = (true, t0) ∧
      (∀ u : Int, t0 ≤ u → u < t0 + interval → RateLimit t0 interval u = (false, t0)) ∧
      (∀ u : Int, t0 + interval + 1 ≤ u → RateLimit t0 interval u = (true, u))) := by
  refine ⟨?_, ?_, ?_⟩
  · intro hle
    unfold RateLimit
    rw [if_pos hle]
  · intro hgt
    unfold RateLimit
    rw [if_neg (by omega)]
  · intro t0 seed hseed
    refine ⟨?_, ?_, ?_⟩
    · unfold RateLimit
      rw [if_neg (by omega)]
    · intro u hu1 hu2
      unfold RateLimit
      rw [if_pos (by omega)]
    · intro u hu
      unfold RateLimit
      rw [if_neg (by omega)]

/-- Witness for C4 at concrete inputs: interval 5, seed 0, success at
time 10, rejection at 12, success again at 16. -/
theorem rateLimit_spec_witness :
    RateLimit 0 5 10 = (true, 10) ∧ RateLimit 10 5 12 = (false, 10) ∧
    RateLimit 10 5 16 = (true, 16) := by
  have h := rateLimit_spec 0 5 10 (by decide)
  have h4 := h.2.2 10 0 (by decide)
  exact ⟨h4.1, h4.2.1 12 (by decide) (by decide), h4.2.2 16 (by decide)⟩

/-! ### Claim C5 -/

/-- C5: for `0 ≤ num < C`, `check num` reads the timestamp stored exactly
`num - 1` slots behind the cursor and `checkafter num` reads the timestamp
stored exactly `num` slots behind the cursor (comparing it with the slot
at the cursor), and both computed indices are non-negative remainders. -/
theorem check_checkafter_read_offsets (s : SaturationLimit) (h : s.inv)
    (num : Int) (hnum0 : 0 ≤ num) (hnum1 : num < (s.times.length : Int))
    (period curtime : Int) :
    s.checkReadVal num = some (s.slotBehind (num - 1)) ∧
    s.check num period curtime =
      some (decide (curtime - s.slotBehind (num - 1) ≤ period)) ∧
    s.checkafter num period =
      some (decide (s.slotBehind 0 - s.slotBehind num ≤ period)) ∧
    0 ≤ (s.index - (num - 1)) % (s.times.length : Int) ∧
    0 ≤ (s.index - num) % (s.times.length : Int) := by
  have hm := inv_pos_len s h
  exact ⟨checkReadVal_eq s h num, check_eq s h num period curtime,
    checkafter_eq s h num period,
    Int.emod_nonneg _ (by omega), Int.emod_nonneg _ (by omega)⟩

/-- Witness for C5 at a concrete input: the state reached by appending
10, 20, 30, 40, 50 into a fresh capacity-5 buffer, `num = 2`. -/
theorem check_checkafter_read_offsets_witness :
    SaturationLimit.checkReadVal { times := [50, 10, 20, 30, 40], index := 0 } 2 =
      some (SaturationLimit.slotBehind { times := [50, 10, 20, 30, 40], index := 0 } 1) ∧
    SaturationLimit.check { times := [50, 10, 20, 30, 40], index := 0 } 2 25 55 =
      some true := by
  have h := check_checkafter_read_offsets { times := [50, 10, 20, 30, 40], index := 0 }
    (by decide) 2 (by decide) (by decide) 25 55
  exact ⟨h.1.trans (by decide), h.2.1.trans (by decide)⟩

/-! ### Claim C7 -/

/-- C7: at the same instant `t`, `CheckRateLimit` returns exactly the
boolean `RateLimit` would return, and (being a pure read in the model,
returning no new cell value) leaves the cell unchanged. -/
theorem checkRateLimit_agrees_rateLimit (prevtime interval t : Int) :
    CheckRateLimit prevtime interval t = (RateLimit prevtime interval t).1 := by
  unfold CheckRateLimit RateLimit
  by_cases h : t - prevtime ≤ interval
  · rw [if_pos h]
    simp only [decide_eq_false_iff_not]
    omega
  · rw [if_neg h]
    simp only [decide_eq_true_eq]
    omega

/-! ### Claim C9 -/

/-- C9: whenever the timestamp `check` reads exceeds `curtime` (a
non-monotonic time source) and `period ≥ 0`, the negative difference
satisfies the comparison and `check` returns true. -/
theorem check_true_on_nonmonotonic_time (s : SaturationLimit) (h : s.inv)
    (num period curtime : Int) (hp : 0 ≤ period)
    (hgt : curtime < s.slotBehind (num - 1)) :
    s.check num period curtime = some true := by
  rw [check_eq s h num period curtime]
  have hle : curtime - s.slotBehind (num - 1) ≤ period := by omega
  simp [hle]

/-- Witness for C9: a buffer whose only slot holds 100 queried with
`curtime = 50`. -/
theorem check_true_on_nonmonotonic_time_witness :
    SaturationLimit.check { times := [100], index := 0 } 1 0 50 = some true :=
  check_true_on_nonmonotonic_time { times := [100], index := 0 } (by decide)
    1 0 50 (by decide) (by decide)

/-! ### Claim C10 -/

/-- C10: from every state satisfying the invariant, `append`, `check` and
`checkafter` succeed (no out-of-range slice access, no division by zero)
for all integer arguments. -/
theorem ops_stay_in_bounds (s : SaturationLimit) (h : s.inv)
    (t num period curtime : Int) :
    (s.append t).isSome = true ∧
    (s.check num period curtime).isSome = true ∧
    (s.checkafter num period).isSome = true := by
  refine ⟨?_, ?_, ?_⟩
  · rw [append_eq s h t]
    rfl
  · rw [check_eq s h num period curtime]
    rfl
  · rw [checkafter_eq s h num period]
    rfl

/-- Witness for C10 with a negative `num` and arbitrary-looking arguments. -/
theorem ops_stay_in_bounds_witness :
    ((mkLimit 2).append 1).isSome = true ∧
    ((mkLimit 2).check (-7) 0 3).isSome = true ∧
    ((mkLimit 2).checkafter (-7) 0).isSome = true :=
  ops_stay_in_bounds (mkLimit 2) (by decide) 1 (-7) 0 3

/-! ### Claim C6 -/

theorem append_len (s : SaturationLimit) (h : s.inv) (t : Int) (s1 : SaturationLimit)
    (h1 : s.append t = some s1) : s1.times.length = s.times.length := by
  rw [append_eq s h t] at h1
  cases h1
  exact List.length_set s.times _ t

/-- An `append` places the new timestamp at the cursor and shifts every
other slot one position further behind it. -/
theorem slotBehind_after_append (s : SaturationLimit) (h : s.inv) (t : Int)
    (s1 : SaturationLimit) (h1 : s.append t = some s1) :
    s1.slotBehind 0 = t ∧
    ∀ k : Int, 0 < k → k < (s.times.length : Int) →
      s1.slotBehind k = s.slotBehind (k - 1) := by
  have hm := inv_pos_len s h
  set L : Int := (s.times.length : Int) with hL
  set i1 : Int := (s.index + 1) % L with hi1
  rw [append_eq s h t] at h1
  have hs1 : s1 = { times := s.times.set i1.toNat t, index := i1 } := by
    cases h1; rfl
  have hi1b : 0 ≤ i1 ∧ i1 < L := ⟨Int.emod_nonneg _ (by omega), Int.emod_lt_of_pos _ hm⟩
  have hlen1 : (s1.times.length : Int) = L := by rw [hs1]; simp [List.length_set]
  constructor
  · unfold SaturationLimit.slotBehind
    rw [hlen1]
    have hidx : (s1.index - 0) % L = i1 := by
      rw [hs1]
      simpa using Int.emod_eq_of_lt hi1b.1 hi1b.2
    rw [hidx, hs1]
    exact getD_set_self _ _ _ (by omega)
  · intro k hk0 hkL
    unfold SaturationLimit.slotBehind
    rw [hlen1, ← hL]
    have hidx : (s1.index - k) % L = (s.index - (k - 1)) % L := by
      rw [hs1]
      show (i1 - k) % L = _
      calc (i1 - k) % L = (i1 % L - k % L) % L := Int.sub_emod _ _ _
        _ = ((s.index + 1) % L - k % L) % L := by
              rw [hi1, Int.emod_emod_of_dvd _ dvd_rfl]
        _ = (s.index + 1 - k) % L := (Int.sub_emod _ _ _).symm
        _ = (s.index - (k - 1)) % L := by ring_nf
    rw [hidx, hs1]
    have hj0 : 0 ≤ (s.index - (k - 1)) % L := Int.emod_nonneg _ (by omega)
    have hjL : (s.index - (k - 1)) % L < L := Int.emod_lt_of_pos _ hm
    have hne : (s.index - (k - 1)) % L ≠ i1 := by
      intro heq
      have hmodeq : (s.index + 1 - k) % L = (s.index + 1) % L := by
        have : s.index - (k - 1) = s.index + 1 - k := by ring
        rw [← this, heq, hi1]
      have hdvd : L ∣ k := by
        have := Int.modEq_iff_dvd.mp hmodeq
        have hk : s.index + 1 - (s.index + 1 - k) = k := by ring
        rwa [hk] at this
      have := Int.le_of_dvd hk0 hdvd
      omega
    have hneNat : i1.toNat ≠ ((s.index - (k - 1)) % L).toNat := by omega
    exact getD_set_other _ _ _ _ hneNat

/-- C6 is false as stated: appending 10, 20, 30, 40, 50 into a fresh
capacity-5 buffer, `check 2 25 55` reads the slot holding 40 (not 30) and
`check 4 25 55` reads the slot holding 20 (not 10); the boolean results
are nevertheless true and false as the claim says. -/
theorem example_cap5_counterexample :
    appendList (some (mkLimit 5)) [10, 20, 30, 40, 50] =
      some { times := [50, 10, 20, 30, 40], index := 0 } ∧
    SaturationLimit.checkReadVal { times := [50, 10, 20, 30, 40], index := 0 } 2 =
      some 40 ∧
    (40 : Int) ≠ 30 ∧
    SaturationLimit.checkReadVal { times := [50, 10, 20, 30, 40], index := 0 } 4 =
      some 20 ∧
    (20 : Int) ≠ 10 ∧
    SaturationLimit.check { times := [50, 10, 20, 30, 40], index := 0 } 2 25 55 =
      some true ∧
    SaturationLimit.check { times := [50, 10, 20, 30, 40], index := 0 } 4 25 55 =
      some false := by decide

/-- C6 (amended): after appending 10, 20, 30, 40, 50 in order into any
valid capacity-5 state, `check 2 25 55` reads the slot holding 40 and
returns true (55 - 40 = 15 ≤ 25), and `check 4 25 55` reads the slot
holding 20 and returns false (35 > 25). -/
theorem example_cap5_reads (s0 : SaturationLimit) (h : s0.inv)
    (hlen : s0.times.length = 5) (s1 s2 s3 s4 s5 : SaturationLimit)
    (h1 : s0.append 10 = some s1) (h2 : s1.append 20 = some s2)
    (h3 : s2.append 30 = some s3) (h4 : s3.append 40 = some s4)
    (h5 : s4.append 50 = some s5) :
    s5.checkReadVal 2 = some 40 ∧ s5.check 2 25 55 = some true ∧
    s5.checkReadVal 4 = some 20 ∧ s5.check 4 25 55 = some false := by
  have hinv1 : s1.inv := append_inv s0 h 10 s1 h1
  have hinv2 : s2.inv := append_inv s1 hinv1 20 s2 h2
  have hinv3 : s3.inv := append_inv s2 hinv2 30 s3 h3
  have hinv4 : s4.inv := append_inv s3 hinv3 40 s4 h4
  have hinv5 : s5.inv := append_inv s4 hinv4 50 s5 h5
  have hlen1 : s1.times.length = 5 := by rw [append_len s0 h 10 s1 h1, hlen]
  have hlen2 : s2.times.length = 5 := by rw [append_len s1 hinv1 20 s2 h2, hlen1]
  have hlen3 : s3.times.length = 5 := by rw [append_len s2 hinv2 30 s3 h3, hlen2]
  have hlen4 : s4.times.length = 5 := by rw [append_len s3 hinv3 40 s4 h4, hlen3]
  have A2 := slotBehind_after_append s1 hinv1 20 s2 h2
  have A3 := slotBehind_after_append s2 hinv2 30 s3 h3
  have A4 := slotBehind_after_append s3 hinv3 40 s4 h4
  have A5 := slotBehind_after_append s4 hinv4 50 s5 h5
  have e1 : s5.slotBehind 1 = 40 := by
    have := A5.2 1 (by norm_num) (by rw [hlen4]; norm_num)
    rw [this]
    simpa using A4.1
  have e3 : s5.slotBehind 3 = 20 := by
    have b5 := A5.2 3 (by norm_num) (by rw [hlen4]; norm_num)
    have b4 := A4.2 2 (by norm_num) (by rw [hlen3]; norm_num)
    have b3 := A3.2 1 (by norm_num) (by rw [hlen2]; norm_num)
    rw [b5]
    norm_num
    rw [b4]
    norm_num
    rw [b3]
    simpa using A2.1
  refine ⟨?_, ?_, ?_, ?_⟩
  · rw [checkReadVal_eq s5 hinv5 2]
    norm_num
    exact e1
  · rw [check_eq s5 hinv5 2 25 55]
    norm_num
    rw [e1]
    decide
  · rw [checkReadVal_eq s5 hinv5 4]
    have : (4 : Int) - 1 = 3 := by norm_num
    rw [this, e3]
  · rw [check_eq s5 hinv5 4 25 55]
    have : (4 : Int) - 1 = 3 := by norm_num
    rw [this, e3]
    decide

/-- Witness for C6's amended theorem: the fresh capacity-5 buffer with the
five concrete intermediate states. -/
theorem example_cap5_reads_witness :
    SaturationLimit.checkReadVal { times := [50, 10, 20, 30, 40], index := 0 } 2 =
      some 40 ∧
    SaturationLimit.check { times := [50, 10, 20, 30, 40], index := 0 } 2 25 55 =
      some true ∧
    SaturationLimit.checkReadVal { times := [50, 10, 20, 30, 40], index := 0 } 4 =
      some 20 ∧
    SaturationLimit.check { times := [50, 10, 20, 30, 40], index := 0 } 4 25 55 =
      some false :=
  example_cap5_reads (mkLimit 5) (by decide) (by decide)
    { times := [0, 10, 0, 0, 0], index := 1 } { times := [0, 10, 20, 0, 0], index := 2 }
    { times := [0, 10, 20, 30, 0], index := 3 } { times := [0, 10, 20, 30, 40], index := 4 }
    { times := [50, 10, 20, 30, 40], index := 0 }
    (by decide) (by decide) (by decide) (by decide) (by decide)

/-! ### Claim C8: interleaved model of the CAS retry loop

Each thread executing `RateLimit`'s loop is always in one of three local
states: before the atomic load, after having loaded a value `d`, or
finished with a boolean result.  The shared state is the cell plus the
list of thread-local states.  Each step is one atomic action of one
thread (`atomic.LoadInt64`, the early return, or the CAS, whose failure
sends the thread back to the load). -/

/-- Local state of one thread inside `RateLimit`'s loop. -/
inductive TState where
  | idle : TState
  | loaded : Int → TState
  | done : Bool → TState
deriving DecidableEq

/-- Shared cell plus the local states of the racing threads. -/
structure RLState where
  cell : Int
  threads : List TState
deriving DecidableEq

/-- One atomic action of one thread of `RateLimit` (all threads sampled
the same current time `t`). -/
inductive RLStep (t interval : Int) : RLState → RLState → Prop where
  | load (σ : RLState) (i : Nat) (h : σ.threads[i]? = some TState.idle) :
      RLStep t interval σ { cell := σ.cell, threads := σ.threads.set i (TState.loaded σ.cell) }
  | reject (σ : RLState) (i : Nat) (d : Int)
      (h : σ.threads[i]? = some (TState.loaded d)) (hle : t - d ≤ interval) :
      RLStep t interval σ { cell := σ.cell, threads := σ.threads.set i (TState.done false) }
  | casOk (σ : RLState) (i : Nat) (d : Int)
      (h : σ.threads[i]? = some (TState.loaded d)) (hgt : interval < t - d)
      (heq : d = σ.cell) :
      RLStep t interval σ { cell := t, threads := σ.threads.set i (TState.done true) }
  | casFail (σ : RLState) (i : Nat) (d : Int)
      (h : σ.threads[i]? = some (TState.loaded d)) (hgt : interval < t - d)
      (hne : d ≠ σ.cell) :
      RLStep t interval σ { cell := σ.cell, threads := σ.threads.set i TState.idle }

/-- Inductive invariant of the race: either nobody has won yet (the cell
still holds the seed and every thread is before its load or holds a fresh
read of the seed), or the cell holds `t` and exactly one thread has won. -/
def RLInv (c0 t : Int) (σ : RLState) : Prop :=
  (σ.cell = c0 ∧ σ.threads.count (TState.done true) = 0 ∧
    ∀ th ∈ σ.threads, th = TState.idle ∨ th = TState.loaded c0)
  ∨ (σ.cell = t ∧ σ.threads.count (TState.done true) = 1)

theorem count_set_of_ne (l : List TState) (i : Nat) (x y : TState) (hi : i < l.length)
    (hold : ¬ l[i] = y) (hnew : ¬ x = y) :
    (l.set i x).count y = l.count y := by
  rw [List.count_set x y l i hi]
  simp only [beq_iff_eq, hold, hnew, if_false]
  omega

theorem count_set_add_one (l : List TState) (i : Nat) (x y : TState) (hi : i < l.length)
    (hold : ¬ l[i] = y) (hnew : x = y) :
    (l.set i x).count y = l.count y + 1 := by
  rw [List.count_set x y l i hi]
  simp only [beq_iff_eq, hold, hnew, if_false, if_true]
  omega

theorem rlstep_preserves_inv (c0 t interval : Int) (hI : 0 ≤ interval)
    (hc0 : interval < t - c0) (σ τ : RLState) (hstep : RLStep t interval σ τ)
    (hinv : RLInv c0 t σ) : RLInv c0 t τ := by
  cases hstep with
  | load i h =>
      obtain ⟨hi, hval⟩ := List.getElem?_eq_some.mp h
      rcases hinv with ⟨hc, hcnt, hall⟩ | ⟨hc, hcnt⟩
      · left
        refine ⟨hc, ?_, ?_⟩
        · rw [count_set_of_ne _ i _ _ hi (by rw [hval]; intro hx; cases hx)
            (by intro hx; cases hx), hcnt]
        · intro th hth
          rcases List.mem_or_eq_of_mem_set hth with hmem | rfl
          · exact hall th hmem
          · right
            rw [hc]
      · right
        exact ⟨hc, by
          rw [count_set_of_ne _ i _ _ hi (by rw [hval]; intro hx; cases hx)
            (by intro hx; cases hx), hcnt]⟩
  | reject i d h hle =>
      obtain ⟨hi, hval⟩ := List.getElem?_eq_some.mp h
      rcases hinv with ⟨hc, hcnt, hall⟩ | ⟨hc, hcnt⟩
      · exfalso
        have hmem : σ.threads[i] ∈ σ.threads := List.getElem_mem hi
        rcases hall _ hmem with hidle | hld
        · rw [hval] at hidle
          cases hidle
        · rw [hval] at hld
          cases hld
          omega
      · right
        exact ⟨hc, by
          rw [count_set_of_ne _ i _ _ hi (by rw [hval]; intro hx; cases hx)
            (by intro hx; cases hx), hcnt]⟩
  | casOk i d h hgt heq =>
      obtain ⟨hi, hval⟩ := List.getElem?_eq_some.mp h
      rcases hinv with ⟨hc, hcnt, hall⟩ | ⟨hc, hcnt⟩
      · right
        refine ⟨rfl, ?_⟩
        rw [count_set_add_one _ i _ _ hi (by rw [hval]; intro hx; cases hx) rfl, hcnt]
      · exfalso
        rw [hc] at heq
        omega
  | casFail i d h hgt hne =>
      obtain ⟨hi, hval⟩ := List.getElem?_eq_some.mp h
      rcases hinv with ⟨hc, hcnt, hall⟩ | ⟨hc, hcnt⟩
      · exfalso
        have hmem : σ.threads[i] ∈ σ.threads := List.getElem_mem hi
        rcases hall _ hmem with hidle | hld
        · rw [hval] at hidle
          cases hidle
        · rw [hval] at hld
          cases hld
          exact hne hc.symm
      · right
        exact ⟨hc, by
          rw [count_set_of_ne _ i _ _ hi (by rw [hval]; intro hx; cases hx)
            (by intro hx; cases hx), hcnt]⟩

theorem rlstep_preserves_length (t interval : Int) (σ τ : RLState)
    (hstep : RLStep t interval σ τ) : τ.threads.length = σ.threads.length := by
  cases hstep <;> simp [List.length_set]

theorem rlinv_reachable (c0 t interval : Int) (hI : 0 ≤ interval)
    (hc0 : interval < t - c0) (N : Nat) (σ : RLState)
    (hreach : Relation.ReflTransGen (RLStep t interval)
      { cell := c0, threads := List.replicate N TState.idle } σ) :
    RLInv c0 t σ ∧ σ.threads.length = N := by
  induction hreach with
  | refl =>
      refine ⟨Or.inl ⟨rfl, ?_, ?_⟩, by simp⟩
      · simp [List.count_replicate]
      · intro th hth
        left
        exact List.eq_of_mem_replicate hth
  | tail hab hbc ih =>
      exact ⟨rlstep_preserves_inv c0 t interval hI hc0 _ _ hbc ih.1,
        (rlstep_preserves_length _ _ _ _ hbc).trans ih.2⟩

theorem count_done_partition (l : List TState)
    (h : ∀ th ∈ l, ∃ b, th = TState.done b) :
    l.count (TState.done true) + l.count (TState.done false) = l.length := by
  induction l with
  | nil => simp
  | cons hd tl ih =>
      obtain ⟨b, rfl⟩ := h hd (List.mem_cons_self hd tl)
      have ihh := ih (fun th hth => h th (List.mem_cons_of_mem _ hth))
      cases b <;> simp [List.count_cons] <;> omega

/-- C8: when `N ≥ 1` threads race `RateLimit` on the same cell within the
same disallowed window (all sampling the same time `t`, the cell seeded at
`c0` with `interval < t - c0`), any terminal interleaving has exactly one
thread finishing with true and the other `N - 1` with false, and the cell
holds the winner's timestamp `t`. -/
theorem rateLimit_race_single_winner (c0 t interval : Int) (N : Nat)
    (hI : 0 ≤ interval) (hc0 : interval < t - c0) (hN : 1 ≤ N) (σ : RLState)
    (hreach : Relation.ReflTransGen (RLStep t interval)
      { cell := c0, threads := List.replicate N TState.idle } σ)
    (hdone : ∀ th ∈ σ.threads, ∃ b, th = TState.done b) :
    σ.cell = t ∧ σ.threads.count (TState.done true) = 1 ∧
    σ.threads.count (TState.done false) = N - 1 := by
  obtain ⟨hinv, hlen⟩ := rlinv_reachable c0 t interval hI hc0 N σ hreach
  rcases hinv with ⟨hc, hcnt, hall⟩ | ⟨hc, hcnt⟩
  · exfalso
    have hne : σ.threads ≠ [] := by
      intro h0
      rw [h0] at hlen
      simp at hlen
      omega
    obtain ⟨hd, tl, heq⟩ := List.exists_cons_of_ne_nil hne
    have hmem : hd ∈ σ.threads := by
      rw [heq]
      exact List.mem_cons_self hd tl
    obtain ⟨b, hb⟩ := hdone hd hmem
    rcases hall hd hmem with h | h <;> rw [hb] at h <;> cases h
  · refine ⟨hc, hcnt, ?_⟩
    have hpart := count_done_partition σ.threads hdone
    omega

/-- Witness for C8: two threads, seed 0, interval 5, time 10; an explicit
interleaving in which thread 0 loads and wins the CAS, then thread 1
loads the updated cell and is rejected. -/
theorem rateLimit_race_single_winner_witness :
    RLState.cell { cell := 10, threads := [TState.done true, TState.done false] } = 10 ∧
    List.count (TState.done true) [TState.done true, TState.done false] = 1 ∧
    List.count (TState.done false) [TState.done true, TState.done false] = 2 - 1 := by
  have hstep1 : RLStep 10 5 { cell := 0, threads := [TState.idle, TState.idle] }
      { cell := 0, threads := [TState.loaded 0, TState.idle] } :=
    RLStep.load _ 0 rfl
  have hstep2 : RLStep 10 5 { cell := 0, threads := [TState.loaded 0, TState.idle] }
      { cell := 10, threads := [TState.done true, TState.idle] } :=
    RLStep.casOk _ 0 0 rfl (by decide) rfl
  have hstep3 : RLStep 10 5 { cell := 10, threads := [TState.done true, TState.idle] }
      { cell := 10, threads := [TState.done true, TState.loaded 10] } :=
    RLStep.load _ 1 rfl
  have hstep4 : RLStep 10 5 { cell := 10, threads := [TState.done true, TState.loaded 10] }
      { cell := 10, threads := [TState.done true, TState.done false] } :=
    RLStep.reject _ 1 10 rfl (by decide)
  have hreach : Relation.ReflTransGen (RLStep 10 5)
      { cell := 0, threads := List.replicate 2 TState.idle }
      { cell := 10, threads := [TState.done true, TState.done false] } :=
    (((Relation.ReflTransGen.single hstep1).tail hstep2).tail hstep3).tail hstep4
  refine rateLimit_race_single_winner 0 10 5 2 (by decide) (by decide) (by decide)
    _ hreach ?_
  intro th hth
  rcases List.mem_cons.mp hth with rfl | hth2
  · exact ⟨true, rfl⟩
  · rcases List.mem_cons.mp hth2 with rfl | h3
    · exact ⟨false, rfl⟩
    · exact absurd h3 (List.not_mem_nil th)

end Sweetiebot
